import Mathlib

/-!
Shallow embedding of the `ab_utils` statistical library
(`binomial_test.py`, `bootstrap.py`, `t_test.py`, `z_test.py`) and proofs
about its claimed behaviour.

Modelling conventions:
* Python/NumPy floating point values are modelled by exact rationals `ℚ`.
  A NaN produced by a degenerate operation (mean of an empty array,
  `0.0 / 0.0`) is modelled by `none` in `Option ℚ`, and IEEE comparisons
  with NaN are `false`.
* A statistic of the form `num / sqrt(denSq)` (t- and z-statistics, whose
  denominator is a square root of an exactly representable rational) is
  carried exactly as the pair `SqrtRatio` of its numerator and the square
  of its denominator.
* External library routines that are not part of the repository
  (scipy distribution functions, `scipy.stats.binomtest`, the
  `np.random.default_rng(42)` stream) are modelled from the spec; each
  such definition carries a doc comment saying so.
-/

set_option maxRecDepth 4000

namespace ABUtils

/-! ### Binomial exact test (`binomial_test.py`) -/

/-- Modelled from the spec: the exact Binomial(n, p0) probability mass
function `st.binom.pmf(k, n, p0)` (an external scipy routine): the
probability of `k` successes in `n` trials with success probability `p0`. -/
def binomPmf (k n : ℕ) (p0 : ℚ) : ℚ :=
  (n.choose k : ℚ) * p0 ^ k * (1 - p0) ^ (n - k)

/-- Modelled from the spec: the Binomial(n, p0) cumulative distribution
function `st.binom.cdf(j, n, p0)`, the mass of all outcomes `≤ j`.
The argument is an integer because the source evaluates the survival
function at `k - 1`, which is `-1` when `k = 0`. -/
def binomCdf (j : ℤ) (n : ℕ) (p0 : ℚ) : ℚ :=
  ∑ i ∈ Finset.range (n + 1), if (i : ℤ) ≤ j then binomPmf i n p0 else 0

/-- Modelled from the spec: the Binomial(n, p0) survival function
`st.binom.sf(j, n, p0) = 1 - cdf(j, n, p0)`, the mass of all outcomes `> j`. -/
def binomSf (j : ℤ) (n : ℕ) (p0 : ℚ) : ℚ :=
  1 - binomCdf j n p0

/-- Embeds `binomial_p_value_manual` from `binomial_test.py`:
`less` sums the mass of outcomes `≤ k` via the CDF, `greater` the mass of
outcomes `≥ k` via the survival function at `k - 1`, and every other
alternative takes the two-sided branch, summing the mass of all outcomes
whose mass is at most the mass of the observed outcome `k`. -/
def binomial_p_value_manual (k n : ℕ) (p0 : ℚ) (alternative : String) : ℚ :=
  let p_obs := binomPmf k n p0
  if alternative = "less" then binomCdf (k : ℤ) n p0
  else if alternative = "greater" then binomSf ((k : ℤ) - 1) n p0
  else ∑ i ∈ Finset.range (n + 1),
    if binomPmf i n p0 ≤ p_obs then binomPmf i n p0 else 0

/-- Modelled from the spec: `binomial_p_value` delegates to the external
reference exact binomial test `scipy.stats.binomtest`. Following the
spec's description of that reference: `less` is the lower tail
P(X ≤ k), `greater` the upper tail P(X ≥ k), and two-sided is the sum of
the probability mass of all outcomes in {0, …, n} whose mass is at most
the mass of the observed outcome. -/
def binomial_p_value (k n : ℕ) (p0 : ℚ) (alternative : String) : ℚ :=
  if alternative = "less" then
    ∑ i ∈ Finset.range (k + 1), binomPmf i n p0
  else if alternative = "greater" then
    ∑ i ∈ Finset.Icc k n, binomPmf i n p0
  else
    ∑ i ∈ (Finset.range (n + 1)).filter
        (fun i => binomPmf i n p0 ≤ binomPmf k n p0), binomPmf i n p0

/-- The binomial mass over the whole support sums to one. -/
lemma binomPmf_sum_eq_one (n : ℕ) (p0 : ℚ) :
    ∑ i ∈ Finset.range (n + 1), binomPmf i n p0 = 1 := by
  have h := add_pow p0 (1 - p0) n
  have h1 : p0 + (1 - p0) = 1 := by ring
  rw [h1, one_pow] at h
  rw [h]
  refine Finset.sum_congr rfl (fun i _ => ?_)
  unfold binomPmf
  ring

/-- The lower-tail branch of the manual test is the mass of outcomes `≤ k`. -/
lemma manual_less_eq (k n : ℕ) (hk : k ≤ n) (p0 : ℚ) :
    binomial_p_value_manual k n p0 "less"
      = ∑ i ∈ Finset.range (k + 1), binomPmf i n p0 := by
  unfold binomial_p_value_manual binomCdf
  rw [if_pos rfl, ← Finset.sum_filter]
  refine Finset.sum_congr ?_ (fun i _ => rfl)
  ext i
  simp only [Finset.mem_filter, Finset.mem_range]
  omega

/-- The upper-tail branch of the manual test is the mass of outcomes `≥ k`. -/
lemma manual_greater_eq (k n : ℕ) (hk : k ≤ n) (p0 : ℚ) :
    binomial_p_value_manual k n p0 "greater"
      = ∑ i ∈ Finset.Icc k n, binomPmf i n p0 := by
  unfold binomial_p_value_manual binomSf binomCdf
  rw [if_neg (by decide), if_pos rfl]
  have hsplit := Finset.sum_filter_add_sum_filter_not (Finset.range (n + 1))
    (fun (i : ℕ) => (i : ℤ) ≤ (k : ℤ) - 1) (fun i => binomPmf i n p0)
  have htot := binomPmf_sum_eq_one n p0
  have hfilters :
      (Finset.range (n + 1)).filter (fun (i : ℕ) => ¬ (i : ℤ) ≤ (k : ℤ) - 1)
        = Finset.Icc k n := by
    ext i
    simp only [Finset.mem_filter, Finset.mem_range, Finset.mem_Icc]
    omega
  have hgoal :
      (∑ i ∈ Finset.range (n + 1),
          if (i : ℤ) ≤ (k : ℤ) - 1 then binomPmf i n p0 else 0)
        = ∑ i ∈ (Finset.range (n + 1)).filter
            (fun (i : ℕ) => (i : ℤ) ≤ (k : ℤ) - 1), binomPmf i n p0 :=
    (Finset.sum_filter _ _).symm
  rw [hgoal]
  rw [hfilters] at hsplit
  linarith [hsplit, htot]

/-- The two-sided branch of the manual test sums the mass of exactly the
outcomes whose mass is at most the observed outcome's mass. -/
lemma manual_twosided_eq (k n : ℕ) (p0 : ℚ) :
    binomial_p_value_manual k n p0 "two-sided"
      = ∑ i ∈ (Finset.range (n + 1)).filter
          (fun i => binomPmf i n p0 ≤ binomPmf k n p0), binomPmf i n p0 := by
  unfold binomial_p_value_manual
  rw [if_neg (by decide), if_neg (by decide), Finset.sum_filter]

/-! ### Shared numeric value model -/

/-- A statistic of the exact form `num / sqrt(denSq)` with `num denSq : ℚ`.
The t- and z-statistics of the source have this shape: their numerator is
an exact rational and their denominator is the square root of an exact
rational standard error. -/
structure SqrtRatio where
  num : ℚ
  denSq : ℚ
deriving DecidableEq, Repr

/-- The floating point value `num / sqrt(denSq)` is exactly `0` iff the
numerator is `0` and the denominator is not (with a zero denominator the
float quotient is `NaN` or `±inf`, never `0`). -/
def SqrtRatio.isZero (r : SqrtRatio) : Prop :=
  r.num = 0 ∧ r.denSq ≠ 0

instance (r : SqrtRatio) : Decidable r.isZero := by
  unfold SqrtRatio.isZero
  infer_instance

/-- Absolute value of a `SqrtRatio` statistic: `|num / sqrt(denSq)|`. -/
def SqrtRatio.abs (r : SqrtRatio) : SqrtRatio :=
  ⟨|r.num|, r.denSq⟩

/-- NumPy mean of a possibly empty array: the mean of an empty slice is
NaN (`none`); otherwise the exact rational average. -/
def npMean (xs : List ℚ) : Option ℚ :=
  if xs.isEmpty then none else some (xs.sum / (xs.length : ℚ))

/-- Total rational mean `x.mean()`, used where the surrounding claim
guarantees a non-empty sample. -/
def meanQ (xs : List ℚ) : ℚ :=
  xs.sum / (xs.length : ℚ)

/-- Unbiased sample variance `x.var(ddof = 1)`:
sum of squared deviations from the mean divided by `n - 1`. -/
def sampleVar (xs : List ℚ) : ℚ :=
  ((xs.map (fun v => (v - meanQ xs) ^ 2)).sum) / ((xs.length : ℚ) - 1)

/-- Subtraction on NaN-aware values: NaN (`none`) propagates. -/
def optSub : Option ℚ → Option ℚ → Option ℚ
  | some a, some b => some (a - b)
  | _, _ => none

/-- Negation on NaN-aware values. -/
def optNeg : Option ℚ → Option ℚ
  | some a => some (-a)
  | none => none

/-- Modelled from the spec: the external standard normal CDF
`st.norm.cdf`, evaluated at an exact statistic `z = num / sqrt(denSq)`.
The claims below use only that it is a symmetric CDF: its value at `0` is
`1/2`, it is `1` at `+inf` and `0` at `-inf`, and it is NaN at NaN. The
stand-in `1/2 * (1 + z * |z| / (z^2 + 1))` (rewritten on the exact
representation so that it is rational-valued) has exactly these
properties and is strictly increasing in `z`. -/
def normCdf (r : SqrtRatio) : Option ℚ :=
  if r.denSq = 0 then
    if r.num = 0 then none
    else if 0 < r.num then some 1 else some 0
  else some (1 / 2 * (1 + r.num * |r.num| / (r.num ^ 2 + r.denSq)))

/-- Modelled from the spec: the external Student's t CDF `st.t.cdf` at an
exact statistic and (possibly non-integer) degrees of freedom. The claims
below depend only on which branch of the p-value computation is selected,
so a symmetric CDF stand-in that ignores `df` is used. -/
def tCdf (r : SqrtRatio) (df : ℚ) : Option ℚ :=
  normCdf r

/-! ### One-sample and Welch t-tests (`t_test.py`) -/

/-- Embeds `onesample_t_stat`: the t-statistic
`(mean(x) - mu0) / (std(x, ddof=1) / sqrt(n))` carried exactly as a
`SqrtRatio` with denominator squared `var(x) / n`, the degrees of freedom
`n - 1`, and the squared standard error of the mean. -/
def onesample_t_stat (x : List ℚ) (mu0 : ℚ) : SqrtRatio × ℕ × ℚ :=
  let n := x.length
  let mx := meanQ x
  let vx := sampleVar x
  let seSq := vx / (n : ℚ)
  (⟨mx - mu0, seSq⟩, n - 1, seSq)

/-- Embeds `onesample_p_value_manual`: two-sided is `2 * (1 - cdf(|t|))`,
`greater` is `1 - cdf(t)`, and every other alternative takes the
lower-tail branch `cdf(t)`. -/
def onesample_p_value_manual (x : List ℚ) (mu0 : ℚ) (alternative : String) :
    Option ℚ × SqrtRatio × ℕ :=
  let r := onesample_t_stat x mu0
  let t := r.1
  let df := r.2.1
  let p : Option ℚ :=
    if alternative = "two-sided" then (tCdf t.abs (df : ℚ)).map (fun c => 2 * (1 - c))
    else if alternative = "greater" then (tCdf t (df : ℚ)).map (fun c => 1 - c)
    else tCdf t (df : ℚ)
  (p, t, df)

/-- Embeds `welch_t_stat`: the Welch t-statistic
`(mean(x) - mean(y)) / sqrt(var(x)/nx + var(y)/ny)` carried exactly as a
`SqrtRatio`, the Welch–Satterthwaite degrees of freedom, and the squared
standard error of the difference of means. -/
def welch_t_stat (x y : List ℚ) : SqrtRatio × ℚ × ℚ :=
  let nx := x.length
  let ny := y.length
  let mx := meanQ x
  let my := meanQ y
  let vx := sampleVar x
  let vy := sampleVar y
  let seSq := vx / (nx : ℚ) + vy / (ny : ℚ)
  let df_num := (vx / (nx : ℚ) + vy / (ny : ℚ)) ^ 2
  let df_den := vx ^ 2 / ((nx : ℚ) ^ 2 * ((nx : ℚ) - 1))
    + vy ^ 2 / ((ny : ℚ) ^ 2 * ((ny : ℚ) - 1))
  (⟨mx - my, seSq⟩, df_num / df_den, seSq)

/-- Embeds `welch_p_value_manual`: two-sided is `2 * (1 - cdf(|t|, df))`,
`greater` is `1 - cdf(t, df)`, and every other alternative takes the
lower-tail branch `cdf(t, df)`. -/
def welch_p_value_manual (x y : List ℚ) (alternative : String) :
    Option ℚ × SqrtRatio × ℚ :=
  let r := welch_t_stat x y
  let t := r.1
  let df := r.2.1
  let p : Option ℚ :=
    if alternative = "two-sided" then (tCdf t.abs df).map (fun c => 2 * (1 - c))
    else if alternative = "greater" then (tCdf t df).map (fun c => 1 - c)
    else tCdf t df
  (p, t, df)

/-! ### Two-sample z-test for proportions (`z_test.py`) -/

/-- Embeds `ztest_prop_stat`: sample proportions, pooled proportion, the
squared pooled standard error
`p_pool * (1 - p_pool) * (1/n1 + 1/n2)`, and the z-statistic
`(p1 - p2) / se_pool` carried exactly as a `SqrtRatio`. -/
def ztest_prop_stat (x1 n1 x2 n2 : ℕ) : SqrtRatio × ℚ × ℚ × ℚ × ℚ :=
  let p1 : ℚ := (x1 : ℚ) / (n1 : ℚ)
  let p2 : ℚ := (x2 : ℚ) / (n2 : ℚ)
  let p_pool : ℚ := ((x1 : ℚ) + (x2 : ℚ)) / ((n1 : ℚ) + (n2 : ℚ))
  let sePoolSq : ℚ := p_pool * (1 - p_pool) * (1 / (n1 : ℚ) + 1 / (n2 : ℚ))
  (⟨p1 - p2, sePoolSq⟩, p1, p2, p_pool, sePoolSq)

/-- Embeds `ztest_prop_p_value_manual`: two-sided is
`2 * (1 - norm.cdf(|z|))`, `greater` is `1 - norm.cdf(z)`, and every
other alternative takes the lower-tail branch `norm.cdf(z)`. -/
def ztest_prop_p_value_manual (x1 n1 x2 n2 : ℕ) (alternative : String) :
    Option ℚ × SqrtRatio :=
  let z := (ztest_prop_stat x1 n1 x2 n2).1
  let p : Option ℚ :=
    if alternative = "two-sided" then (normCdf z.abs).map (fun c => 2 * (1 - c))
    else if alternative = "greater" then (normCdf z).map (fun c => 1 - c)
    else normCdf z
  (p, z)

/-! ### Permutation test engine (`bootstrap.py`) -/

/-- Modelled from the spec: one step of the deterministic pseudo-random
source created by `np.random.default_rng(42)` inside every call of the
engine (an external NumPy generator). The spec constrains the source only
to be deterministic given the fixed seed; a small linear congruential
generator stands in for the PCG64 stream. -/
def rngNext (s : ℕ) : ℕ :=
  (75 * s + 74) % 65537

/-- Modelled from the spec: the initial state of the fresh generator
seeded with the fixed seed 42 at the start of every call. -/
def rngSeed : ℕ :=
  rngNext 42

/-- Swap the entries at positions `i` and `j` of a list (identity when an
index is out of range). -/
def listSwap (l : List ℚ) (i j : ℕ) : List ℚ :=
  match l.get? i, l.get? j with
  | some a, some b => (l.set i b).set j a
  | _, _ => l

/-- Modelled from the spec: the body of `rng.shuffle`, a Fisher–Yates
pass driven by the deterministic stream. `fisherYatesAux i l s` swaps
position `i + 1` with a drawn position in `[0, i + 1]` and recurses
downwards, returning the shuffled list and the advanced stream state. -/
def fisherYatesAux : ℕ → List ℚ → ℕ → List ℚ × ℕ
  | 0, l, s => (l, s)
  | i + 1, l, s =>
    let s2 := rngNext s
    let j := s2 % (i + 2)
    fisherYatesAux i (listSwap l (i + 1) j) s2

/-- Modelled from the spec: `rng.shuffle(pooled)` — an in-place uniform
shuffle of the pooled sequence, modelled as explicit state passing of the
deterministic stream. -/
def shuffle (l : List ℚ) (s : ℕ) : List ℚ × ℕ :=
  fisherYatesAux (l.length - 1) l s

/-- One iteration of the engine's resampling state: shuffle the pooled
sequence with the current stream state. -/
def permStep (st : List ℚ × ℕ) : List ℚ × ℕ :=
  shuffle st.1 st.2

/-- The engine's resampling loop: for each of `reps` iterations, shuffle
the pooled sequence in place and record
`metric(pooled[:n_x]) - metric(pooled[n_x:])`. -/
def permLoop (metric : List ℚ → Option ℚ) (n_x : ℕ) :
    ℕ → List ℚ × ℕ → List (Option ℚ)
  | 0, _ => []
  | r + 1, st =>
    let st2 := permStep st
    optSub (metric (st2.1.take n_x)) (metric (st2.1.drop n_x))
      :: permLoop metric n_x r st2

/-- IEEE comparison `|t| >= |t_obs|` on NaN-aware values: any comparison
involving NaN is false. -/
def geAbsCmp (t t_obs : Option ℚ) : Bool :=
  match t, t_obs with
  | some a, some b => decide (|b| ≤ |a|)
  | _, _ => false

/-- IEEE comparison `t >= t_obs` on NaN-aware values. -/
def geCmp (t t_obs : Option ℚ) : Bool :=
  match t, t_obs with
  | some a, some b => decide (b ≤ a)
  | _, _ => false

/-- IEEE comparison `t <= t_obs` on NaN-aware values. -/
def leCmp (t t_obs : Option ℚ) : Bool :=
  match t, t_obs with
  | some a, some b => decide (a ≤ b)
  | _, _ => false

/-- Embeds `permutation_test_pvalue` from `bootstrap.py`: compute
`T_obs = metric(x) - metric(y)`, pool the samples, create a fresh
deterministic generator seeded with the fixed seed, run the resampling
loop, and derive the p-value as the mean of the comparison indicators
selected by the alternative (`np.mean` of an empty array, when
`reps = 0`, is NaN). Returns `(p, T_obs, T_stats)`. -/
def permutation_test_pvalue (x y : List ℚ) (metric : List ℚ → Option ℚ)
    (reps : ℕ) (alternative : String) :
    Option ℚ × Option ℚ × List (Option ℚ) :=
  let T_obs := optSub (metric x) (metric y)
  let pooled := x ++ y
  let n_x := x.length
  let T_stats := permLoop metric n_x reps (pooled, rngSeed)
  let cnt : ℕ :=
    if alternative = "two-sided" then T_stats.countP (fun t => geAbsCmp t T_obs)
    else if alternative = "greater" then T_stats.countP (fun t => geCmp t T_obs)
    else T_stats.countP (fun t => leCmp t T_obs)
  let p : Option ℚ := if reps = 0 then none else some ((cnt : ℚ) / (reps : ℚ))
  (p, T_obs, T_stats)

/-- The pooled sequence as it stands after `i + 1` of the engine's
in-place shuffles (the sequence from which iteration `i` of the loop,
counting from `0`, computes its trace entry). -/
def shuffledPooled (x y : List ℚ) (i : ℕ) : List ℚ :=
  (permStep^[i + 1] (x ++ y, rngSeed)).1

/-- The trace entry of iteration `i`: the metric of the first `n_x`
elements of the shuffled pooled sequence minus the metric of the
remaining `n_y` elements. -/
def traceEntry (x y : List ℚ) (metric : List ℚ → Option ℚ) (i : ℕ) : Option ℚ :=
  optSub (metric ((shuffledPooled x y i).take x.length))
    (metric ((shuffledPooled x y i).drop x.length))

/-- The fraction of trace entries satisfying a comparison against the
observed statistic. -/
def traceFraction (cmp : Option ℚ → Option ℚ → Bool)
    (trace : List (Option ℚ)) (t_obs : Option ℚ) : ℚ :=
  ((trace.countP (fun t => cmp t t_obs) : ℕ) : ℚ) / (trace.length : ℚ)

/-- Closed form of the resampling loop: the trace lists, in order, the
entries computed from the iterated shuffle states. -/
lemma permLoop_eq_map (metric : List ℚ → Option ℚ) (n_x : ℕ) (r : ℕ)
    (st : List ℚ × ℕ) :
    permLoop metric n_x r st
      = (List.range r).map (fun i =>
          optSub (metric ((permStep^[i + 1] st).1.take n_x))
            (metric ((permStep^[i + 1] st).1.drop n_x))) := by
  induction r generalizing st with
  | zero => simp [permLoop]
  | succ r ih =>
    rw [permLoop, ih (permStep st), List.range_succ_eq_map]
    simp only [List.map_cons, List.map_map]
    refine congrArg₂ List.cons ?_ ?_
    · rfl
    · refine List.map_congr_left (fun i _ => ?_)
      simp only [Function.comp_apply, Function.iterate_succ_apply]

/-! ### Claim theorems -/

/-- C1: two calls of `permutation_test_pvalue` with identical arguments
return bit-identical results — the same p-value, the same observed
statistic, and an element-wise identical trace — and the trace of every
call is the one generated from the generator freshly seeded with the
fixed seed inside the call. -/
theorem permutation_test_deterministic (x y : List ℚ)
    (metric : List ℚ → Option ℚ) (reps : ℕ) (alternative : String) :
    (permutation_test_pvalue x y metric reps alternative).1
      = (permutation_test_pvalue x y metric reps alternative).1
  ∧ (permutation_test_pvalue x y metric reps alternative).2.1
      = (permutation_test_pvalue x y metric reps alternative).2.1
  ∧ (∀ i : ℕ, (permutation_test_pvalue x y metric reps alternative).2.2.get? i
      = (permutation_test_pvalue x y metric reps alternative).2.2.get? i)
  ∧ (permutation_test_pvalue x y metric reps alternative).2.2
      = permLoop metric x.length reps (x ++ y, rngSeed) :=
  ⟨rfl, rfl, fun _ => rfl, rfl⟩

/-- C2: for non-empty samples and `reps ≥ 1`, the engine returns
`T_obs = metric(x) - metric(y)`, a trace of exactly `reps` entries, the
`i`-th being the metric of the first `n_x` elements of the shuffled
pooled sequence minus the metric of the remaining elements, and a
p-value equal to the fraction of trace entries that are at least
`|T_obs|` in absolute value (two-sided), at least `T_obs` (greater), or
at most `T_obs` (less). -/
theorem permutation_test_engine_spec (x y : List ℚ)
    (metric : List ℚ → Option ℚ) (reps : ℕ) (alternative : String)
    (hx : x ≠ []) (hy : y ≠ []) (hr : 1 ≤ reps) :
    (permutation_test_pvalue x y metric reps alternative).2.1
        = optSub (metric x) (metric y)
  ∧ (permutation_test_pvalue x y metric reps alternative).2.2
        = (List.range reps).map (traceEntry x y metric)
  ∧ (permutation_test_pvalue x y metric reps alternative).2.2.length = reps
  ∧ (alternative = "two-sided" →
      (permutation_test_pvalue x y metric reps alternative).1
        = some (traceFraction geAbsCmp
            ((List.range reps).map (traceEntry x y metric))
            (optSub (metric x) (metric y))))
  ∧ (alternative = "greater" →
      (permutation_test_pvalue x y metric reps alternative).1
        = some (traceFraction geCmp
            ((List.range reps).map (traceEntry x y metric))
            (optSub (metric x) (metric y))))
  ∧ (alternative = "less" →
      (permutation_test_pvalue x y metric reps alternative).1
        = some (traceFraction leCmp
            ((List.range reps).map (traceEntry x y metric))
            (optSub (metric x) (metric y)))) := by
  have hne : reps ≠ 0 := by omega
  have hentry : traceEntry x y metric = fun i =>
      optSub (metric ((permStep^[i + 1] (x ++ y, rngSeed)).1.take x.length))
        (metric ((permStep^[i + 1] (x ++ y, rngSeed)).1.drop x.length)) := rfl
  have hloop2 : permLoop metric x.length reps (x ++ y, rngSeed)
      = (List.range reps).map (traceEntry x y metric) := by
    rw [hentry]
    exact permLoop_eq_map metric x.length reps (x ++ y, rngSeed)
  have hlen : ((List.range reps).map (traceEntry x y metric)).length = reps := by
    simp
  refine ⟨rfl, hloop2, ?_, ?_, ?_, ?_⟩
  · show (permLoop metric x.length reps (x ++ y, rngSeed)).length = reps
    rw [hloop2]
    exact hlen
  · intro h
    subst h
    simp only [permutation_test_pvalue, hloop2, traceFraction, hlen,
      if_true, if_false]
    rw [if_neg hne]
  · intro h
    subst h
    simp only [permutation_test_pvalue, hloop2, traceFraction, hlen,
      if_true, if_false]
    rw [if_neg (show ¬ ("greater" : String) = "two-sided" by decide),
      if_neg hne]
  · intro h
    subst h
    simp only [permutation_test_pvalue, hloop2, traceFraction, hlen,
      if_true, if_false]
    rw [if_neg (show ¬ ("less" : String) = "two-sided" by decide),
      if_neg (show ¬ ("less" : String) = "greater" by decide),
      if_neg hne]

/-- C2 witness: the engine theorem instantiated at `x = [1]`, `y = [2]`,
the NumPy mean metric, one repetition, and the two-sided alternative. -/
theorem permutation_test_engine_spec_witness :
    (([1] : List ℚ) ≠ [] ∧ ([2] : List ℚ) ≠ [] ∧ 1 ≤ 1)
  ∧ ((permutation_test_pvalue [1] [2] npMean 1 "two-sided").2.1
        = optSub (npMean [1]) (npMean [2])
     ∧ (permutation_test_pvalue [1] [2] npMean 1 "two-sided").2.2
        = (List.range 1).map (traceEntry [1] [2] npMean)
     ∧ (permutation_test_pvalue [1] [2] npMean 1 "two-sided").2.2.length = 1
     ∧ ("two-sided" = "two-sided" →
        (permutation_test_pvalue [1] [2] npMean 1 "two-sided").1
          = some (traceFraction geAbsCmp
              ((List.range 1).map (traceEntry [1] [2] npMean))
              (optSub (npMean [1]) (npMean [2]))))
     ∧ ("two-sided" = "greater" →
        (permutation_test_pvalue [1] [2] npMean 1 "two-sided").1
          = some (traceFraction geCmp
              ((List.range 1).map (traceEntry [1] [2] npMean))
              (optSub (npMean [1]) (npMean [2]))))
     ∧ ("two-sided" = "less" →
        (permutation_test_pvalue [1] [2] npMean 1 "two-sided").1
          = some (traceFraction leCmp
              ((List.range 1).map (traceEntry [1] [2] npMean))
              (optSub (npMean [1]) (npMean [2]))))) :=
  ⟨⟨by decide, by decide, by decide⟩,
   permutation_test_engine_spec [1] [2] npMean 1 "two-sided"
     (by decide) (by decide) (by decide)⟩

/-- C5: at the failing input `x = []`, `y = [1]`, `metric = np.mean`,
`reps = 1`, two-sided, the engine does not fail: it silently returns a
NaN observed statistic, a NaN trace entry, and the p-value `0`. -/
theorem permutation_test_empty_sample_returns_nan :
    permutation_test_pvalue [] [1] npMean 1 "two-sided"
      = (some 0, none, [none]) := by
  simp [permutation_test_pvalue, permLoop, permStep, shuffle, fisherYatesAux,
    listSwap, npMean, optSub, geAbsCmp, rngSeed, rngNext]

/-- C8 (amended): swapping the two samples negates the observed
statistic (with NaN mapped to NaN), for every metric, repetition count
and alternative. -/
theorem permutation_swap_negates_Tobs (x y : List ℚ)
    (metric : List ℚ → Option ℚ) (reps : ℕ) (alternative : String) :
    (permutation_test_pvalue y x metric reps alternative).2.1
      = optNeg ((permutation_test_pvalue x y metric reps alternative).2.1) := by
  show optSub (metric y) (metric x) = optNeg (optSub (metric x) (metric y))
  cases hx : metric x <;> cases hy : metric y <;>
    simp [optSub, optNeg, neg_sub]

/-- C8 counterexample: at `x = [0]`, `y = [1, 4]`, metric `np.mean`,
one repetition, two-sided, the p-values of the swapped and unswapped
calls differ (`1` versus `0`), so swapping does not leave the two-sided
p-value unchanged. -/
theorem permutation_swap_pvalue_counterexample :
    ¬ ((permutation_test_pvalue [1, 4] [0] npMean 1 "two-sided").1
        = (permutation_test_pvalue [0] [1, 4] npMean 1 "two-sided").1) := by
  simp [permutation_test_pvalue, permLoop, permStep, shuffle, fisherYatesAux,
    listSwap, npMean, optSub, geAbsCmp, rngSeed, rngNext]
  norm_num [List.countP_cons, List.countP_nil, abs_of_nonneg]

/-- C10: for every alternative string outside
{two-sided, greater, less}, the four p-value functions raise no error
and return exactly the lower-tail result of `alternative = "less"`. -/
theorem unknown_alternative_falls_back_to_less (alternative : String)
    (h1 : alternative ≠ "two-sided") (h2 : alternative ≠ "greater")
    (h3 : alternative ≠ "less") :
    (∀ (x y : List ℚ) (metric : List ℚ → Option ℚ) (reps : ℕ),
      permutation_test_pvalue x y metric reps alternative
        = permutation_test_pvalue x y metric reps "less")
  ∧ (∀ (x : List ℚ) (mu0 : ℚ),
      onesample_p_value_manual x mu0 alternative
        = onesample_p_value_manual x mu0 "less")
  ∧ (∀ (x y : List ℚ),
      welch_p_value_manual x y alternative = welch_p_value_manual x y "less")
  ∧ (∀ (x1 n1 x2 n2 : ℕ),
      ztest_prop_p_value_manual x1 n1 x2 n2 alternative
        = ztest_prop_p_value_manual x1 n1 x2 n2 "less") := by
  refine ⟨fun x y metric reps => ?_, fun x mu0 => ?_, fun x y => ?_,
    fun x1 n1 x2 n2 => ?_⟩ <;>
    simp [permutation_test_pvalue, onesample_p_value_manual,
      welch_p_value_manual, ztest_prop_p_value_manual, h1, h2]

/-- C10 witness: the fallback theorem instantiated at the unknown
alternative string "both" and concrete inputs for each function. -/
theorem unknown_alternative_falls_back_to_less_witness :
    (("both" : String) ≠ "two-sided" ∧ ("both" : String) ≠ "greater"
      ∧ ("both" : String) ≠ "less")
  ∧ (permutation_test_pvalue [1] [2] npMean 1 "both"
        = permutation_test_pvalue [1] [2] npMean 1 "less"
     ∧ onesample_p_value_manual [1, 2] 0 "both"
        = onesample_p_value_manual [1, 2] 0 "less"
     ∧ welch_p_value_manual [1, 2] [3, 4] "both"
        = welch_p_value_manual [1, 2] [3, 4] "less"
     ∧ ztest_prop_p_value_manual 1 2 1 2 "both"
        = ztest_prop_p_value_manual 1 2 1 2 "less") :=
  ⟨⟨by decide, by decide, by decide⟩,
   ⟨(unknown_alternative_falls_back_to_less "both" (by decide) (by decide)
        (by decide)).1 [1] [2] npMean 1,
    (unknown_alternative_falls_back_to_less "both" (by decide) (by decide)
        (by decide)).2.1 [1, 2] 0,
    (unknown_alternative_falls_back_to_less "both" (by decide) (by decide)
        (by decide)).2.2.1 [1, 2] [3, 4],
    (unknown_alternative_falls_back_to_less "both" (by decide) (by decide)
        (by decide)).2.2.2 1 2 1 2⟩⟩

/-- C3: the manual binomial test returns the Binomial(n, p0) CDF at `k`
(the mass of outcomes `≤ k`) for `less`, the upper-tail mass
P(X ≥ k) via the survival function for `greater`, and for two-sided the
sum of the PMF over exactly those outcomes in {0, …, n} whose PMF is at
most the PMF of the observed outcome `k`. -/
theorem binomial_manual_tail_characterization (k n : ℕ) (p0 : ℚ)
    (hk : k ≤ n) (hn : 1 ≤ n) (hp0 : 0 < p0) (hp1 : p0 < 1) :
    binomial_p_value_manual k n p0 "less"
      = ∑ i ∈ Finset.range (k + 1), binomPmf i n p0
  ∧ binomial_p_value_manual k n p0 "greater"
      = ∑ i ∈ Finset.Icc k n, binomPmf i n p0
  ∧ binomial_p_value_manual k n p0 "two-sided"
      = ∑ i ∈ (Finset.range (n + 1)).filter
          (fun i => binomPmf i n p0 ≤ binomPmf k n p0), binomPmf i n p0 :=
  ⟨manual_less_eq k n hk p0, manual_greater_eq k n hk p0,
   manual_twosided_eq k n p0⟩

/-- C3 witness: the characterization instantiated at `k = 1`, `n = 2`,
`p0 = 1/2`. -/
theorem binomial_manual_tail_characterization_witness :
    ((1 : ℕ) ≤ 2 ∧ (1 : ℕ) ≤ 2 ∧ (0 : ℚ) < 1 / 2 ∧ (1 : ℚ) / 2 < 1)
  ∧ (binomial_p_value_manual 1 2 (1 / 2) "less"
        = ∑ i ∈ Finset.range (1 + 1), binomPmf i 2 (1 / 2)
     ∧ binomial_p_value_manual 1 2 (1 / 2) "greater"
        = ∑ i ∈ Finset.Icc 1 2, binomPmf i 2 (1 / 2)
     ∧ binomial_p_value_manual 1 2 (1 / 2) "two-sided"
        = ∑ i ∈ (Finset.range (2 + 1)).filter
            (fun i => binomPmf i 2 (1 / 2) ≤ binomPmf 1 2 (1 / 2)),
            binomPmf i 2 (1 / 2)) :=
  ⟨⟨by decide, by decide, one_half_pos, one_half_lt_one⟩,
   binomial_manual_tail_characterization 1 2 (1 / 2)
     (by decide) (by decide) one_half_pos one_half_lt_one⟩

/-- C4: for all valid inputs and each of the three alternatives, the
reference-backed `binomial_p_value` and `binomial_p_value_manual` differ
by at most `1e-9` (in fact they agree exactly). -/
theorem binomial_p_value_agrees_manual (k n : ℕ) (p0 : ℚ)
    (hk : k ≤ n) (hn : 1 ≤ n) (hp0 : 0 < p0) (hp1 : p0 < 1) :
    |binomial_p_value k n p0 "less" - binomial_p_value_manual k n p0 "less"|
        ≤ 1 / 1000000000
  ∧ |binomial_p_value k n p0 "greater"
        - binomial_p_value_manual k n p0 "greater"| ≤ 1 / 1000000000
  ∧ |binomial_p_value k n p0 "two-sided"
        - binomial_p_value_manual k n p0 "two-sided"| ≤ 1 / 1000000000 := by
  have h1 : binomial_p_value k n p0 "less"
      = binomial_p_value_manual k n p0 "less" := by
    rw [manual_less_eq k n hk p0]
    unfold binomial_p_value
    rw [if_pos rfl]
  have h2 : binomial_p_value k n p0 "greater"
      = binomial_p_value_manual k n p0 "greater" := by
    rw [manual_greater_eq k n hk p0]
    unfold binomial_p_value
    rw [if_neg (by decide), if_pos rfl]
  have h3 : binomial_p_value k n p0 "two-sided"
      = binomial_p_value_manual k n p0 "two-sided" := by
    rw [manual_twosided_eq k n p0]
    unfold binomial_p_value
    rw [if_neg (by decide), if_neg (by decide)]
  refine ⟨?_, ?_, ?_⟩
  · rw [h1, sub_self, abs_zero]
    norm_num
  · rw [h2, sub_self, abs_zero]
    norm_num
  · rw [h3, sub_self, abs_zero]
    norm_num

/-- C4 witness: the agreement theorem instantiated at `k = 1`, `n = 2`,
`p0 = 1/2`. -/
theorem binomial_p_value_agrees_manual_witness :
    ((1 : ℕ) ≤ 2 ∧ (1 : ℕ) ≤ 2 ∧ (0 : ℚ) < 1 / 2 ∧ (1 : ℚ) / 2 < 1)
  ∧ (|binomial_p_value 1 2 (1 / 2) "less"
        - binomial_p_value_manual 1 2 (1 / 2) "less"| ≤ 1 / 1000000000
     ∧ |binomial_p_value 1 2 (1 / 2) "greater"
        - binomial_p_value_manual 1 2 (1 / 2) "greater"| ≤ 1 / 1000000000
     ∧ |binomial_p_value 1 2 (1 / 2) "two-sided"
        - binomial_p_value_manual 1 2 (1 / 2) "two-sided"| ≤ 1 / 1000000000) :=
  ⟨⟨by decide, by decide, one_half_pos, one_half_lt_one⟩,
   binomial_p_value_agrees_manual 1 2 (1 / 2)
     (by decide) (by decide) one_half_pos one_half_lt_one⟩

/-- C6: at the failing input `k = 5 > n = 3` the manual binomial
function performs no argument validation: it returns the numeric
p-value `1` instead of failing with an invalid-argument error. -/
theorem binomial_manual_no_argument_validation :
    binomial_p_value_manual 5 3 (1 / 2) "less" = 1 := by
  norm_num [binomial_p_value_manual, binomCdf, binomPmf,
    Finset.sum_range_succ]

/-- Sample variance is nonnegative whenever it is defined with a
positive `n - 1` denominator. -/
lemma sampleVar_nonneg (xs : List ℚ) (h2 : 2 ≤ xs.length) :
    0 ≤ sampleVar xs := by
  unfold sampleVar
  apply div_nonneg
  · apply List.sum_nonneg
    intro a ha
    simp only [List.mem_map] at ha
    obtain ⟨v, hv, rfl⟩ := ha
    positivity
  · have h : (2 : ℚ) ≤ (xs.length : ℚ) := by exact_mod_cast h2
    linarith

/-- Core algebraic bounds for the Welch–Satterthwaite formula: for
positive per-group variance contributions `A`, `B` and degrees `p`, `q`
at least one, the quantity `(A+B)^2 / (A^2/p + B^2/q)` lies strictly
above `min p q` and at most `p + q`. -/
lemma welch_df_core (A B p q : ℚ) (hA : 0 < A) (hB : 0 < B)
    (hp : 1 ≤ p) (hq : 1 ≤ q) :
    min p q < (A + B) ^ 2 / (A ^ 2 / p + B ^ 2 / q)
  ∧ (A + B) ^ 2 / (A ^ 2 / p + B ^ 2 / q) ≤ p + q := by
  have hp0 : 0 < p := by linarith
  have hq0 : 0 < q := by linarith
  have hden : 0 < A ^ 2 / p + B ^ 2 / q := by positivity
  constructor
  · rw [lt_div_iff hden]
    rcases le_total p q with hpq | hpq
    · rw [min_eq_left hpq]
      have h1 : p * (A ^ 2 / p + B ^ 2 / q) = A ^ 2 + p * B ^ 2 / q := by
        field_simp
        ring
      rw [h1]
      have h2 : p * B ^ 2 / q ≤ B ^ 2 := by
        rw [div_le_iff hq0]
        nlinarith
      nlinarith [mul_pos hA hB]
    · rw [min_eq_right hpq]
      have h1 : q * (A ^ 2 / p + B ^ 2 / q) = q * A ^ 2 / p + B ^ 2 := by
        field_simp
        ring
      rw [h1]
      have h2 : q * A ^ 2 / p ≤ A ^ 2 := by
        rw [div_le_iff hp0]
        nlinarith
      nlinarith [mul_pos hA hB]
  · rw [div_le_iff hden]
    have key : (p + q) * (A ^ 2 / p + B ^ 2 / q) - (A + B) ^ 2
        = (A * q - B * p) ^ 2 / (p * q) := by
      field_simp
      ring
    have hsq : 0 ≤ (A * q - B * p) ^ 2 / (p * q) :=
      div_nonneg (sq_nonneg _) (le_of_lt (mul_pos hp0 hq0))
    linarith [key, hsq]

/-- C7 (amended): for samples of length at least two whose sample
variances are both nonzero, the Welch–Satterthwaite degrees of freedom
lie strictly above `min(n_x, n_y) - 1` and at most `n_x + n_y - 2`. -/
theorem welch_df_bounds_of_pos_variances (x y : List ℚ)
    (hx : 2 ≤ x.length) (hy : 2 ≤ y.length)
    (hvx : sampleVar x ≠ 0) (hvy : sampleVar y ≠ 0) :
    ((min x.length y.length : ℕ) : ℚ) - 1 < (welch_t_stat x y).2.1
  ∧ (welch_t_stat x y).2.1 ≤ ((x.length + y.length : ℕ) : ℚ) - 2 := by
  have hnx : (2 : ℚ) ≤ (x.length : ℚ) := by exact_mod_cast hx
  have hny : (2 : ℚ) ≤ (y.length : ℚ) := by exact_mod_cast hy
  have hvx0 : 0 < sampleVar x :=
    lt_of_le_of_ne (sampleVar_nonneg x hx) (Ne.symm hvx)
  have hvy0 : 0 < sampleVar y :=
    lt_of_le_of_ne (sampleVar_nonneg y hy) (Ne.symm hvy)
  have hA : 0 < sampleVar x / (x.length : ℚ) := div_pos hvx0 (by linarith)
  have hB : 0 < sampleVar y / (y.length : ℚ) := div_pos hvy0 (by linarith)
  have hcore := welch_df_core (sampleVar x / (x.length : ℚ))
    (sampleVar y / (y.length : ℚ)) ((x.length : ℚ) - 1) ((y.length : ℚ) - 1)
    hA hB (by linarith) (by linarith)
  have hdf : (welch_t_stat x y).2.1
      = (sampleVar x / (x.length : ℚ) + sampleVar y / (y.length : ℚ)) ^ 2
        / ((sampleVar x / (x.length : ℚ)) ^ 2 / ((x.length : ℚ) - 1)
          + (sampleVar y / (y.length : ℚ)) ^ 2 / ((y.length : ℚ) - 1)) := by
    simp only [welch_t_stat]
    rw [div_pow, div_pow, div_div, div_div]
  have hmin : ((min x.length y.length : ℕ) : ℚ) - 1
      = min ((x.length : ℚ) - 1) ((y.length : ℚ) - 1) := by
    rw [Nat.cast_min, min_sub_sub_right]
  have hsum : ((x.length + y.length : ℕ) : ℚ) - 2
      = ((x.length : ℚ) - 1) + ((y.length : ℚ) - 1) := by
    push_cast
    ring
  rw [hdf, hmin, hsum]
  exact hcore

/-- C7 witness: the amended bounds instantiated at `x = [0, 2]`,
`y = [0, 2, 4]` (sample variances `2` and `4`). -/
theorem welch_df_bounds_of_pos_variances_witness :
    (2 ≤ List.length ([0, 2] : List ℚ) ∧ 2 ≤ List.length ([0, 2, 4] : List ℚ)
      ∧ sampleVar [0, 2] ≠ 0 ∧ sampleVar ([0, 2, 4] : List ℚ) ≠ 0)
  ∧ (((min (List.length ([0, 2] : List ℚ))
          (List.length ([0, 2, 4] : List ℚ)) : ℕ) : ℚ) - 1
        < (welch_t_stat [0, 2] [0, 2, 4]).2.1
     ∧ (welch_t_stat [0, 2] [0, 2, 4]).2.1
        ≤ ((List.length ([0, 2] : List ℚ)
            + List.length ([0, 2, 4] : List ℚ) : ℕ) : ℚ) - 2) :=
  ⟨⟨by decide, by decide, by norm_num [sampleVar, meanQ],
     by norm_num [sampleVar, meanQ]⟩,
   welch_df_bounds_of_pos_variances [0, 2] [0, 2, 4] (by decide) (by decide)
     (by norm_num [sampleVar, meanQ]) (by norm_num [sampleVar, meanQ])⟩

/-- C7 counterexample: at `x = [1, 1]` (zero sample variance) and
`y = [0, 2]` the Welch degrees of freedom equal `min(n_x, n_y) - 1 = 1`
exactly, so they do not lie strictly above `min(n_x, n_y) - 1`. -/
theorem welch_df_lower_bound_counterexample :
    ¬ (((min (List.length ([1, 1] : List ℚ))
          (List.length ([0, 2] : List ℚ)) : ℕ) : ℚ) - 1
        < (welch_t_stat [1, 1] [0, 2]).2.1) := by
  norm_num [welch_t_stat, sampleVar, meanQ]

/-- C9 (amended): when the two sample proportions are exactly equal and
the pooled proportion is strictly between 0 and 1, the z-statistic is
exactly zero and the manual two-sided p-value is exactly 1. -/
theorem ztest_equal_props_zero_stat (x1 n1 x2 n2 : ℕ)
    (hn1 : 1 ≤ n1) (hn2 : 1 ≤ n2)
    (heq : (x1 : ℚ) / (n1 : ℚ) = (x2 : ℚ) / (n2 : ℚ))
    (hpos : 0 < x1 + x2) (hlt : x1 + x2 < n1 + n2) :
    (ztest_prop_stat x1 n1 x2 n2).1.isZero
  ∧ (ztest_prop_p_value_manual x1 n1 x2 n2 "two-sided").1 = some 1 := by
  have hnum : (x1 : ℚ) / (n1 : ℚ) - (x2 : ℚ) / (n2 : ℚ) = 0 := by
    rw [heq]
    ring
  have hxpos : (0 : ℚ) < (x1 : ℚ) + (x2 : ℚ) := by exact_mod_cast hpos
  have hnpos : (0 : ℚ) < (n1 : ℚ) + (n2 : ℚ) := by
    have : (0 : ℚ) < (n1 : ℚ) := by exact_mod_cast hn1
    have h2 : (0 : ℚ) ≤ (n2 : ℚ) := by positivity
    linarith
  have hppos : (0 : ℚ) < ((x1 : ℚ) + (x2 : ℚ)) / ((n1 : ℚ) + (n2 : ℚ)) :=
    div_pos hxpos hnpos
  have hplt : ((x1 : ℚ) + (x2 : ℚ)) / ((n1 : ℚ) + (n2 : ℚ)) < 1 := by
    rw [div_lt_one hnpos]
    exact_mod_cast hlt
  have hn1Q : (0 : ℚ) < (n1 : ℚ) := by exact_mod_cast hn1
  have hn2Q : (0 : ℚ) < (n2 : ℚ) := by exact_mod_cast hn2
  have hse : 0 < ((x1 : ℚ) + (x2 : ℚ)) / ((n1 : ℚ) + (n2 : ℚ))
      * (1 - ((x1 : ℚ) + (x2 : ℚ)) / ((n1 : ℚ) + (n2 : ℚ)))
      * (1 / (n1 : ℚ) + 1 / (n2 : ℚ)) := by
    apply mul_pos (mul_pos hppos (by linarith))
    positivity
  constructor
  · exact ⟨hnum, ne_of_gt hse⟩
  · simp only [ztest_prop_p_value_manual, ztest_prop_stat, SqrtRatio.abs,
      normCdf, if_true, if_false, hnum, abs_zero]
    rw [if_neg (ne_of_gt hse)]
    norm_num

/-- C9 witness: the amended theorem instantiated at
`x1 = 1, n1 = 2, x2 = 1, n2 = 2`. -/
theorem ztest_equal_props_zero_stat_witness :
    ((1 : ℕ) ≤ 2 ∧ (1 : ℕ) ≤ 2
      ∧ ((1 : ℕ) : ℚ) / ((2 : ℕ) : ℚ) = ((1 : ℕ) : ℚ) / ((2 : ℕ) : ℚ)
      ∧ 0 < 1 + 1 ∧ 1 + 1 < 2 + 2)
  ∧ ((ztest_prop_stat 1 2 1 2).1.isZero
     ∧ (ztest_prop_p_value_manual 1 2 1 2 "two-sided").1 = some 1) :=
  ⟨⟨by decide, by decide, rfl, by decide, by decide⟩,
   ztest_equal_props_zero_stat 1 2 1 2 (by decide) (by decide) rfl
     (by decide) (by decide)⟩

/-- C9 counterexample: at `x1 = 0, n1 = 1, x2 = 0, n2 = 1` the sample
proportions are exactly equal, but the pooled standard error is zero, so
the z-statistic is NaN rather than 0 and the two-sided p-value is NaN
rather than 1. -/
theorem ztest_equal_props_degenerate_counterexample :
    ¬ ((ztest_prop_stat 0 1 0 1).1.isZero
       ∧ (ztest_prop_p_value_manual 0 1 0 1 "two-sided").1 = some 1) := by
  intro h
  have hz := h.1.2
  apply hz
  norm_num [ztest_prop_stat]

end ABUtils
